import Mathlib

/-!
# Verification of the png_pong chunk-level codec

A shallow embedding of the chunk parser (`src/decoder.rs`), the image-header
codec (`src/chunk/ihdr.rs`) and the text codec (`src/chunk/text.rs`).

Byte streams are `List Nat` with each element a byte value; machine integers
are `Nat` with explicit `% 2 ^ w` / `% 256` where the code truncates.
Fallible code returns `Except`; since the Rust reader is a mutable cursor,
stateful operations also return the parser / leftover stream, so that a
failing operation still records how far the cursor advanced.

Code of the repository that is not among the provided sources
(`src/consts.rs`, `src/checksum.rs`, `src/decode.rs`, `src/encode.rs`,
`src/chunk/mod.rs`) is modelled from the spec; each such definition says so
in its doc comment.
-/

namespace PngPong

/-- Big-endian interpretation of a byte list (`u32::from_be_bytes` for a
4-byte list). -/
def beBytes (l : List Nat) : Nat :=
  l.foldl (fun acc b => acc * 256 + b) 0

/-- Big-endian 4-byte encoding of a 32-bit value (`u32::to_be_bytes`). -/
def encodeBE32 (n : Nat) : List Nat :=
  [n / 16777216 % 256, n / 65536 % 256, n / 256 % 256, n % 256]

/-- One shift-and-conditionally-xor round of the standard reflected CRC-32
polynomial `0xEDB88320`.  Modelled from the spec: the `CRC32_LOOKUP` table of
`src/consts.rs` is not among the provided sources; the spec fixes it as the
table of the "standard reflected polynomial". -/
def crcStep (c : Nat) : Nat :=
  if c % 2 = 1 then 0xEDB88320 ^^^ (c / 2) else c / 2

/-- Entry `i` of the table-driven CRC-32 lookup table (`consts::CRC32_LOOKUP`),
eight polynomial rounds applied to the byte value.  Modelled from the spec. -/
def crcTable (i : Nat) : Nat :=
  crcStep^[8] i

/-- The constant `consts::CRC32_INIT`.  Modelled from the spec: the initial
constant of the standard CRC-32, `0xFFFFFFFF`. -/
def CRC32_INIT : Nat := 0xFFFFFFFF

/-- The constant `consts::MAX_CHUNK_SIZE`.  Modelled from the spec: the
maximum chunk size constant bounding the declared length; the spec does not
fix its value, we use the largest length representable per the wire format,
`2 ^ 31 - 1`. -/
def MAX_CHUNK_SIZE : Nat := 2 ^ 31 - 1

/-- One byte folded into the running checksum, exactly the loop body of
`Parser::bytes`: `acc = table[low_byte(acc) XOR byte] XOR (acc >> 8)`. -/
def crcFoldByte (acc b : Nat) : Nat :=
  crcTable ((acc % 256) ^^^ b) ^^^ (acc / 256)

/-- The running checksum after consuming a byte list. -/
def crcFold (acc : Nat) (l : List Nat) : Nat :=
  l.foldl crcFoldByte acc

/-- The kind of a `std::io::Error`, as far as the parser inspects it. -/
inductive IoKind where
  | unexpectedEof
  | otherKind
deriving DecidableEq

/-- PNG color types (`ColorType` in `src/chunk/ihdr.rs`). -/
inductive ColorType where
  | Grey
  | Rgb
  | Palette
  | GreyAlpha
  | Rgba
deriving DecidableEq

/-- The wire byte of a color type (its `#[repr(u8)]` discriminant). -/
def ColorType.toByte : ColorType → Nat
  | .Grey => 0
  | .Rgb => 2
  | .Palette => 3
  | .GreyAlpha => 4
  | .Rgba => 6

/-- Decode errors (`decode::Error`).  Modelled from the spec: `src/decode.rs`
is not among the provided sources; the variants and their payloads follow the
error taxonomy of the spec and the constructors used by the provided sources.
`Error::Io(e)` is modelled by its inspected kind.  A chunk tag is a 4-byte
list. -/
inductive DecoderError where
  | IoError (kind : IoKind)
  | InvalidSignature
  | ChunkLength (name : List Nat)
  | Crc32 (name : List Nat)
  | ImageDimensions
  | BitDepth (depth : Nat)
  | ColorTypeErr (c : Nat)
  | ColorMode (c : ColorType) (depth : Nat)
  | CompressionMethod
  | FilterMethod
  | InterlaceMethod
  | KeySize (len : Nat)
deriving DecidableEq

/-- Encode errors (`encode::Error`).  Modelled from the spec: only the
key-size variant is exercised by the provided sources. -/
inductive EncoderError where
  | KeySize (len : Nat)
deriving DecidableEq

/-- The chunk parser (`Parser` in `src/decoder.rs`): declared chunk length,
running CRC-32 accumulator, and the underlying reader modelled as the list of
not-yet-consumed bytes. -/
structure Parser where
  length : Nat
  chksum : Nat
  stream : List Nat
deriving DecidableEq

/-- A `read_exact` on the underlying reader: yields `n` bytes or fails with
an unexpected-EOF I/O error. -/
def Parser.readExact (p : Parser) (n : Nat) :
    Except DecoderError (List Nat) × Parser :=
  if n ≤ p.stream.length then
    (.ok (p.stream.take n), { p with stream := p.stream.drop n })
  else
    (.error (.IoError .unexpectedEof), p)

/-- The method `Parser::bytes`: read `n` raw bytes and fold each into the
running checksum. -/
def Parser.bytes (p : Parser) (n : Nat) :
    Except DecoderError (List Nat) × Parser :=
  match p.readExact n with
  | (.error e, p') => (.error e, p')
  | (.ok arr, p') => (.ok arr, { p' with chksum := crcFold p'.chksum arr })

/-- The method `Parser::u8`: one byte via `Parser::bytes`. -/
def Parser.u8 (p : Parser) : Except DecoderError Nat × Parser :=
  match p.bytes 1 with
  | (.error e, p') => (.error e, p')
  | (.ok arr, p') => (.ok arr.headI, p')

/-- The method `Parser::prepare`: read the 4-byte big-endian length, reset
the checksum, read the 4-byte tag, and reject over-long chunks.  An
unexpected EOF on the very first byte is the clean end of the stream
(`Ok(None)`). -/
def Parser.prepare (p : Parser) :
    Except DecoderError (Option (List Nat)) × Parser :=
  match p.u8 with
  | (.error (.IoError k), p') =>
    if k = .unexpectedEof then (.ok none, p) else (.error (.IoError k), p')
  | (.error e, p') => (.error e, p')
  | (.ok first, p1) =>
  match p1.u8 with
  | (.error e, p') => (.error e, p')
  | (.ok b1, p2) =>
  match p2.u8 with
  | (.error e, p') => (.error e, p')
  | (.ok b2, p3) =>
  match p3.u8 with
  | (.error e, p') => (.error e, p')
  | (.ok b3, p4) =>
  let len := beBytes [first, b1, b2, b3]
  let p5 : Parser := { p4 with length := len, chksum := CRC32_INIT }
  match p5.u8 with
  | (.error e, p') => (.error e, p')
  | (.ok n0, p6) =>
  match p6.u8 with
  | (.error e, p') => (.error e, p')
  | (.ok n1, p7) =>
  match p7.u8 with
  | (.error e, p') => (.error e, p')
  | (.ok n2, p8) =>
  match p8.u8 with
  | (.error e, p') => (.error e, p')
  | (.ok n3, p9) =>
  let name := [n0, n1, n2, n3]
  if len > MAX_CHUNK_SIZE then
    (.error (.ChunkLength name), p9)
  else
    (.ok (some name), p9)

/-- The method `Parser::len`: the declared body length of the current
chunk. -/
def Parser.len (p : Parser) : Nat := p.length

/-- The method `Parser::vec`: read `len` bytes one `u8` at a time. -/
def Parser.vec (p : Parser) : Nat → Except DecoderError (List Nat) × Parser
  | 0 => (.ok [], p)
  | n + 1 =>
    match p.u8 with
    | (.error e, p') => (.error e, p')
    | (.ok b, p1) =>
    match p1.vec n with
    | (.error e, p') => (.error e, p')
    | (.ok rest, p2) => (.ok (b :: rest), p2)

/-- The method `Parser::raw`: read the entire chunk body. -/
def Parser.raw (p : Parser) : Except DecoderError (List Nat) × Parser :=
  p.vec p.len

/-- The method `Parser::check_crc`: read the trailing 4-byte field directly
from the reader (not through `bytes`, so it is not folded into the checksum)
and compare it with the accumulator XORed with the init constant. -/
def Parser.check_crc (p : Parser) (name : List Nat) :
    Except DecoderError Unit × Parser :=
  match p.readExact 4 with
  | (.error e, p') => (.error e, p')
  | (.ok crc32, p') =>
    if beBytes crc32 ≠ p'.chksum ^^^ CRC32_INIT then
      (.error (.Crc32 name), p')
    else
      (.ok (), p')

/-- The method `ColorType::channels`. -/
def ColorType.channels : ColorType → Nat
  | .Grey | .Palette => 1
  | .GreyAlpha => 2
  | .Rgb => 3
  | .Rgba => 4

/-- The method `ColorType::bpp`: bits per pixel.  The function asserts
`bit_depth >= 1 && bit_depth <= 16`; the panic on a violated assertion is
modelled as `none`. -/
def ColorType.bpp (c : ColorType) (bit_depth : Nat) : Option Nat :=
  if 1 ≤ bit_depth ∧ bit_depth ≤ 16 then
    let ch := c.channels
    some (ch * if ch > 1 then (if bit_depth = 8 then 8 else 16) else bit_depth)
  else
    none

/-- The method `ColorType::check_png_color_validity`. -/
def ColorType.check_png_color_validity (c : ColorType) (bd : Nat) :
    Except DecoderError Unit :=
  match c with
  | .Grey =>
    if ¬(bd = 1 ∨ bd = 2 ∨ bd = 4 ∨ bd = 8 ∨ bd = 16) then
      .error (.ColorMode c bd)
    else
      .ok ()
  | .Palette =>
    if ¬(bd = 1 ∨ bd = 2 ∨ bd = 4 ∨ bd = 8) then
      .error (.ColorMode c bd)
    else
      .ok ()
  | .Rgb | .GreyAlpha | .Rgba =>
    if ¬(bd = 8 ∨ bd = 16) then
      .error (.ColorMode c bd)
    else
      .ok ()

/-- The bit depths the spec's validity matrix allows for a color type. -/
def allowedDepths : ColorType → List Nat
  | .Grey => [1, 2, 4, 8, 16]
  | .Palette => [1, 2, 4, 8]
  | .Rgb | .GreyAlpha | .Rgba => [8, 16]

/-- The spec's validity matrix as a predicate on `(color_type, bit_depth)`. -/
def validColorMode (c : ColorType) (bd : Nat) : Prop :=
  bd ∈ allowedDepths c

instance (c : ColorType) (bd : Nat) : Decidable (validColorMode c bd) :=
  inferInstanceAs (Decidable (bd ∈ allowedDepths c))

/-- The image-header chunk data (`ImageHeader` in `src/chunk/ihdr.rs`). -/
structure ImageHeader where
  width : Nat
  height : Nat
  color_type : ColorType
  bit_depth : Nat
  interlace : Bool
deriving DecidableEq

/-- Modelled from the spec: `encode_u32` of `src/chunk/mod.rs` (not among the
provided sources) appends the 4-byte big-endian encoding. -/
def encode_u32 (n : Nat) : List Nat := encodeBE32 n

/-- Modelled from the spec: `encode_u8` of `src/chunk/mod.rs` (not among the
provided sources) appends the single byte. -/
def encode_u8 (n : Nat) : List Nat := [n % 256]

/-- The method `ImageHeader::write`, restricted to the 13-byte chunk body it
serializes (the subsequent framing with tag, length and checksum is the
Encode Framer's job, out of the body codec's scope). -/
def ImageHeader.write (h : ImageHeader) : List Nat :=
  encode_u32 h.width ++ encode_u32 h.height ++ encode_u8 h.bit_depth ++
    encode_u8 h.color_type.toByte ++ encode_u8 0 ++ encode_u8 0 ++
    encode_u8 (if h.interlace then 1 else 0)

/-- Modelled from the spec: `CrcDecoder::u8` of `src/checksum.rs` (not among
the provided sources) reads one byte. -/
def readU8 (s : List Nat) : Except DecoderError (Nat × List Nat) :=
  match s with
  | [] => .error (.IoError .unexpectedEof)
  | b :: rest => .ok (b, rest)

/-- Modelled from the spec: `CrcDecoder::u32` of `src/checksum.rs` (not among
the provided sources) reads a 4-byte big-endian value. -/
def readU32 (s : List Nat) : Except DecoderError (Nat × List Nat) :=
  match s with
  | b0 :: b1 :: b2 :: b3 :: rest => .ok (beBytes [b0, b1, b2, b3], rest)
  | _ => .error (.IoError .unexpectedEof)

/-- The color-type byte mapped to the enum, the `match` inside
`ImageHeader::read`. -/
def colorTypeOfByte : Nat → Option ColorType
  | 0 => some .Grey
  | 2 => some .Rgb
  | 3 => some .Palette
  | 4 => some .GreyAlpha
  | 6 => some .Rgba
  | _ => none

/-- The method `ImageHeader::read` over the chunk body bytes, returning the
result together with the not-yet-consumed remainder of the stream (the Rust
reader is a mutable cursor, so a failure leaves it at the position of the
failing check).  The `CrcDecoder` wrapper is modelled from the spec by plain
in-order byte reads; its trailing-checksum duty belongs to the framer (§4.1
of the spec) and is not part of the body grammar. -/
def ImageHeader.read (s : List Nat) :
    Except DecoderError ImageHeader × List Nat :=
  match readU32 s with
  | .error e => (.error e, s)
  | .ok (width, s1) =>
  match readU32 s1 with
  | .error e => (.error e, s1)
  | .ok (height, s2) =>
  if width = 0 ∨ height = 0 then (.error .ImageDimensions, s2) else
  match readU8 s2 with
  | .error e => (.error e, s2)
  | .ok (bit_depth, s3) =>
  if bit_depth = 0 ∨ bit_depth > 16 then (.error (.BitDepth bit_depth), s3) else
  match readU8 s3 with
  | .error e => (.error e, s3)
  | .ok (ct, s4) =>
  match colorTypeOfByte ct with
  | none => (.error (.ColorTypeErr ct), s4)
  | some color_type =>
  match color_type.check_png_color_validity bit_depth with
  | .error e => (.error e, s4)
  | .ok () =>
  match readU8 s4 with
  | .error e => (.error e, s4)
  | .ok (cm, s5) =>
  if cm ≠ 0 then (.error .CompressionMethod, s5) else
  match readU8 s5 with
  | .error e => (.error e, s5)
  | .ok (fm, s6) =>
  if fm ≠ 0 then (.error .FilterMethod, s6) else
  match readU8 s6 with
  | .error e => (.error e, s6)
  | .ok (il, s7) =>
  match il with
  | 0 => (.ok ⟨width, height, color_type, bit_depth, false⟩, s7)
  | 1 => (.ok ⟨width, height, color_type, bit_depth, true⟩, s7)
  | _ => (.error .InterlaceMethod, s7)

/-- The method `ImageHeader::bpp`. -/
def ImageHeader.bpp (h : ImageHeader) : Option Nat :=
  h.color_type.bpp h.bit_depth

/-- The method `ImageHeader::raw_size`:
`((n / 8) * bpp) + ((n & 7) * bpp + 7) / 8` with `n = width * height`;
`none` when the assertion inside `bpp` panics. -/
def ImageHeader.raw_size (h : ImageHeader) : Option Nat :=
  match h.bpp with
  | none => none
  | some bpp =>
    let n := h.width * h.height
    some ((n / 8) * bpp + ((n &&& 7) * bpp + 7) / 8)

/-- The text chunk data (`Text` in `src/chunk/text.rs`); the Rust `String`s
are modelled as byte lists (the claims about this codec restrict values to
ASCII, where the lossy UTF-8 decoding is the identity on bytes). -/
structure Text where
  key : List Nat
  val : List Nat
deriving DecidableEq

/-- Modelled from the spec: `parsenic`'s `Reader::strz` (an external
dependency) reads the bytes up to the first terminator byte `0x00`, consuming
the terminator; when the buffer holds no terminator the read runs off the end
of the buffer and fails (a short read, not a key-size failure). -/
def strz (s : List Nat) : Except DecoderError (List Nat × List Nat) :=
  match s with
  | [] => .error (.IoError .unexpectedEof)
  | b :: rest =>
    if b = 0 then .ok ([], rest)
    else
      match strz rest with
      | .error e => .error e
      | .ok (key, r) => .ok (b :: key, r)

/-- The method `Text::parse` over the raw chunk body.  `parse.len()` always
equals the body length (the body was produced by `Parser::raw`, which reads
exactly `len()` bytes), so the value slice `parse.len() - (key.len() + 1)` is
exactly the remainder after key and terminator, the slice never runs short,
and the final `reader.end()` always succeeds. -/
def Text.parse (buffer : List Nat) : Except DecoderError Text :=
  match strz buffer with
  | .error e => .error e
  | .ok (key, r) =>
    if 1 ≤ key.length ∧ key.length ≤ 79 then
      .ok ⟨key, r.take (buffer.length - (key.length + 1))⟩
    else
      .error (.KeySize key.length)

/-- The method `Text::write`: the key must be non-empty; the declared length
is `key.len() + val.len() + 1` and the body is the key bytes, one terminator
byte, then the raw value bytes (`Enc::prepare`/`str`/`string` of
`src/encoder.rs` are not among the provided sources and are modelled from the
spec; the trailing `write_crc` is the Encode Framer's job). -/
def Text.write (t : Text) : Except EncoderError (Nat × List Nat) :=
  if t.key.length = 0 then
    .error (.KeySize 0)
  else
    .ok (t.key.length + t.val.length + 1, t.key ++ [0] ++ t.val)

/-- The spec's bits-per-pixel formula: channel count times (the bit depth for
single-channel modes, otherwise 8 for depth 8 and 16 for every other
depth). -/
def specBpp (c : ColorType) (bd : Nat) : Nat :=
  c.channels * (if c.channels = 1 then bd else if bd = 8 then 8 else 16)

theorem beBytes_encodeBE32 {n : Nat} (h : n < 4294967296) :
    beBytes (encodeBE32 n) = n := by
  simp only [beBytes, encodeBE32, List.foldl]
  omega

theorem crcFold_nil (acc : Nat) : crcFold acc [] = acc := rfl

theorem crcFold_cons (acc b : Nat) (l : List Nat) :
    crcFold acc (b :: l) = crcFold (crcFoldByte acc b) l := rfl

theorem crcFold_append (acc : Nat) (l₁ l₂ : List Nat) :
    crcFold acc (l₁ ++ l₂) = crcFold (crcFold acc l₁) l₂ := by
  simp [crcFold, List.foldl_append]

theorem Parser.u8_cons (len ck : Nat) (b : Nat) (s : List Nat) :
    Parser.u8 ⟨len, ck, b :: s⟩ = (.ok b, ⟨len, crcFoldByte ck b, s⟩) := by
  simp [Parser.u8, Parser.bytes, Parser.readExact, crcFold, crcFoldByte]

theorem Parser.u8_nil (len ck : Nat) :
    Parser.u8 ⟨len, ck, []⟩ = (.error (.IoError .unexpectedEof), ⟨len, ck, []⟩) := by
  simp [Parser.u8, Parser.bytes, Parser.readExact]

theorem check_validity_ok {c : ColorType} {bd : Nat}
    (h : validColorMode c bd) : c.check_png_color_validity bd = .ok () := by
  cases c <;>
    simp only [validColorMode, allowedDepths, List.mem_cons,
      List.not_mem_nil, or_false] at h <;>
    simp [ColorType.check_png_color_validity, h]

theorem check_validity_error {c : ColorType} {bd : Nat}
    (h : ¬ validColorMode c bd) :
    c.check_png_color_validity bd = .error (.ColorMode c bd) := by
  cases c <;>
    simp only [validColorMode, allowedDepths, List.mem_cons,
      List.not_mem_nil, or_false] at h <;>
    simp [ColorType.check_png_color_validity, h]

theorem validColorMode_depth_bounds {c : ColorType} {bd : Nat}
    (h : validColorMode c bd) : 1 ≤ bd ∧ bd ≤ 16 := by
  cases c <;>
    simp only [validColorMode, allowedDepths, List.mem_cons,
      List.not_mem_nil, or_false] at h <;>
    omega

theorem bpp_eq_specBpp (c : ColorType) (bd : Nat)
    (h : 1 ≤ bd ∧ bd ≤ 16) : c.bpp bd = some (specBpp c bd) := by
  cases c <;> simp [ColorType.bpp, specBpp, ColorType.channels, h]

theorem and_seven_eq_mod (n : Nat) : n &&& 7 = n % 8 := by
  have h := Nat.and_pow_two_sub_one_eq_mod n 3
  norm_num at h
  exact h

/-- The bit-stream rounding identity behind `raw_size`: folding the whole
pixel count as one linear bit-stream and rounding once agrees with
`ceil(n * b / 8)`. -/
theorem rawSizeFlat (n b : Nat) :
    (n / 8) * b + ((n &&& 7) * b + 7) / 8 = (n * b + 7) / 8 := by
  rw [and_seven_eq_mod]
  conv_rhs => rw [← Nat.div_add_mod n 8]
  rw [Nat.add_mul, Nat.mul_assoc, Nat.add_assoc,
    Nat.mul_add_div (by norm_num)]

theorem strz_append {key : List Nat} (hz : 0 ∉ key) (r : List Nat) :
    strz (key ++ 0 :: r) = .ok (key, r) := by
  induction key with
  | nil => simp [strz]
  | cons b bs ih =>
    simp only [List.mem_cons, not_or] at hz
    obtain ⟨hb, hbs⟩ := hz
    simp [strz, List.cons_append, Ne.symm hb, ih hbs]

theorem readU32_encodeBE32 {n : Nat} (h : n < 4294967296) (rest : List Nat) :
    readU32 (encodeBE32 n ++ rest) = .ok (n, rest) := by
  have hb := beBytes_encodeBE32 h
  simp only [encodeBE32] at hb ⊢
  simp only [List.cons_append, List.nil_append, readU32, hb]

theorem colorTypeOfByte_toByte (c : ColorType) :
    colorTypeOfByte c.toByte = some c := by
  cases c <;> rfl

/-- Running `prepare` on a stream holding a full 8-byte header: the four
length bytes are consumed (their checksum folds are discarded by the reset),
the checksum restarts at the init constant and folds exactly the four tag
bytes, and an over-long declared length is rejected with the tag. -/
theorem prepare_header (len ck l0 l1 l2 l3 t0 t1 t2 t3 : Nat)
    (rest : List Nat) :
    Parser.prepare ⟨len, ck, l0::l1::l2::l3::t0::t1::t2::t3::rest⟩ =
      if beBytes [l0, l1, l2, l3] > MAX_CHUNK_SIZE then
        (.error (.ChunkLength [t0, t1, t2, t3]),
         ⟨beBytes [l0, l1, l2, l3], crcFold CRC32_INIT [t0, t1, t2, t3],
          rest⟩)
      else
        (.ok (some [t0, t1, t2, t3]),
         ⟨beBytes [l0, l1, l2, l3], crcFold CRC32_INIT [t0, t1, t2, t3],
          rest⟩) := by
  simp only [Parser.prepare, Parser.u8_cons, crcFold_cons, crcFold_nil]

/-- Running `check_crc` on a stream holding the 4 trailing checksum bytes. -/
theorem check_crc_cons (len ck c0 c1 c2 c3 : Nat) (rest name : List Nat) :
    Parser.check_crc ⟨len, ck, c0 :: c1 :: c2 :: c3 :: rest⟩ name =
      if beBytes [c0, c1, c2, c3] ≠ ck ^^^ CRC32_INIT then
        (.error (.Crc32 name), ⟨len, ck, rest⟩)
      else
        (.ok (), ⟨len, ck, rest⟩) := by
  rw [Parser.check_crc, Parser.readExact, if_pos (by simp)]
  have ht : List.take 4 (c0 :: c1 :: c2 :: c3 :: rest) = [c0, c1, c2, c3] :=
    rfl
  have hd : List.drop 4 (c0 :: c1 :: c2 :: c3 :: rest) = rest := rfl
  rw [ht, hd]

/-- Running `vec` reads exactly its count of bytes, folding each into the
checksum. -/
theorem vec_append (len ck : Nat) (body rest : List Nat) :
    Parser.vec ⟨len, ck, body ++ rest⟩ body.length =
      (.ok body, ⟨len, crcFold ck body, rest⟩) := by
  induction body generalizing ck with
  | nil => simp [Parser.vec, crcFold_nil]
  | cons b bs ih =>
    simp [Parser.vec, Parser.u8_cons, ih, crcFold_cons]

/-- C2: `ColorType::check_png_color_validity` succeeds exactly on the
validity matrix — Grey with depths 1, 2, 4, 8, 16; Palette with 1, 2, 4, 8;
Rgb, GreyAlpha and Rgba with 8, 16 — and on every other pair fails with a
color-mode error carrying both the color type and the bit depth. -/
theorem C2_color_validity (c : ColorType) (bd : Nat) :
    (validColorMode c bd → c.check_png_color_validity bd = .ok ()) ∧
    (¬ validColorMode c bd →
      c.check_png_color_validity bd = .error (.ColorMode c bd)) :=
  ⟨check_validity_ok, check_validity_error⟩

theorem C2_color_validity_witness :
    ColorType.check_png_color_validity .Grey 4 = .ok () ∧
    ColorType.check_png_color_validity .Rgb 4 =
      .error (.ColorMode .Rgb 4) :=
  ⟨(C2_color_validity .Grey 4).1 (by decide),
   (C2_color_validity .Rgb 4).2 (by decide)⟩

/-- C9: for a header whose pixel bit count fits in `usize`, `raw_size` is
`ceil((width * height * bpp) / 8)` with `bpp` the spec's per-pixel bit
count: the pixel count is flattened into one linear bit-stream and rounded
up to whole bytes once, with no per-row rounding. -/
theorem C9_raw_size (h : ImageHeader)
    (hbd : 1 ≤ h.bit_depth ∧ h.bit_depth ≤ 16)
    (hfit : h.width * h.height * specBpp h.color_type h.bit_depth < 2 ^ 64) :
    h.raw_size =
      some ((h.width * h.height * specBpp h.color_type h.bit_depth + 7) / 8) := by
  rw [ImageHeader.raw_size, ImageHeader.bpp, bpp_eq_specBpp _ _ hbd]
  simp [rawSizeFlat]

theorem C9_raw_size_witness :
    (1 ≤ 3 ∧ 3 ≤ 16) ∧
    ImageHeader.raw_size ⟨5, 3, .Grey, 3, false⟩ =
      some ((5 * 3 * specBpp .Grey 3 + 7) / 8) :=
  ⟨by decide, C9_raw_size ⟨5, 3, .Grey, 3, false⟩ (by decide) (by decide)⟩

/-- C4: a `Text` whose key has 1 to 79 bytes and no terminator byte, and
whose value is ASCII, encodes to declared length `key.len + val.len + 1`
with body `key ++ [0] ++ val`, and parsing that body gives back the same key
and value. -/
theorem C4_text_roundtrip (t : Text) (h1 : 1 ≤ t.key.length)
    (h2 : t.key.length ≤ 79) (hz : 0 ∉ t.key)
    (hascii : ∀ b ∈ t.val, b < 128) :
    t.write = .ok (t.key.length + t.val.length + 1, t.key ++ [0] ++ t.val) ∧
    Text.parse (t.key ++ [0] ++ t.val) = .ok t := by
  obtain ⟨key, val⟩ := t
  simp only at h1 h2 hz
  constructor
  · simp only [Text.write]
    rw [if_neg (by omega)]
  · have hb : key ++ [0] ++ val = key ++ 0 :: val := by simp
    simp only [Text.parse, hb, strz_append hz]
    rw [if_pos ⟨h1, h2⟩]
    have hlen : (key ++ 0 :: val).length - (key.length + 1) = val.length := by
      simp
      omega
    rw [hlen, List.take_length]

theorem C4_text_roundtrip_witness :
    Text.write ⟨[75], [104, 105]⟩ = .ok (4, [75] ++ [0] ++ [104, 105]) ∧
    Text.parse ([75] ++ [0] ++ [104, 105]) = .ok ⟨[75], [104, 105]⟩ :=
  C4_text_roundtrip ⟨[75], [104, 105]⟩ (by decide) (by decide) (by decide)
    (by decide)

/-- C8 counterexample: the one-byte body `[65]` holds no terminator byte in
its first 80 bytes, yet `Text::parse` fails with a short-read error from the
terminated-string read, not with a key-size error. -/
theorem C8_counterexample :
    Text.parse [65] = .error (.IoError .unexpectedEof) ∧
    (match Text.parse [65] with
     | .error (.KeySize _) => False
     | _ => True) := by
  have h : Text.parse [65] = .error (.IoError .unexpectedEof) := rfl
  exact ⟨h, by rw [h]; trivial⟩

/-- C8 (amended): a text chunk body whose first terminator byte sits at
index at least 80 — so the body does contain a terminator, but none within
its first 80 bytes — fails with a key-size error carrying the key length. -/
theorem C8_no_early_terminator (key rest : List Nat) (hz : 0 ∉ key)
    (hlen : 80 ≤ key.length) :
    Text.parse (key ++ 0 :: rest) = .error (.KeySize key.length) := by
  simp only [Text.parse, strz_append hz]
  rw [if_neg (by omega)]

theorem C8_no_early_terminator_witness :
    Text.parse (List.replicate 80 65 ++ 0 :: []) =
      .error (.KeySize (List.replicate 80 65).length) :=
  C8_no_early_terminator (List.replicate 80 65) [] (by decide) (by decide)

/-- C3: serializing a valid image header's 13-byte body and decoding it back
reproduces the identical header, with the whole body consumed. -/
theorem C3_header_roundtrip (h : ImageHeader) (hw : 0 < h.width)
    (hh : 0 < h.height) (hw32 : h.width < 4294967296)
    (hh32 : h.height < 4294967296)
    (hv : validColorMode h.color_type h.bit_depth) :
    ImageHeader.read h.write = (.ok h, []) := by
  obtain ⟨w, ht, c, bd, il⟩ := h
  simp only at hw hh hw32 hh32 hv
  obtain ⟨hbd1, hbd16⟩ := validColorMode_depth_bounds hv
  have hbd256 : bd % 256 = bd := Nat.mod_eq_of_lt (by omega)
  have hct256 : c.toByte % 256 = c.toByte := by cases c <;> rfl
  simp only [ImageHeader.write, encode_u32, List.append_assoc]
  simp only [ImageHeader.read, readU32_encodeBE32 hw32,
    readU32_encodeBE32 hh32, encode_u8, hbd256, hct256, List.cons_append,
    List.nil_append, readU8]
  rw [if_neg (by omega), if_neg (by omega)]
  simp only [colorTypeOfByte_toByte, check_validity_ok hv]
  cases il <;> simp

theorem C3_header_roundtrip_witness :
    ImageHeader.read (ImageHeader.write ⟨1, 2, .Rgba, 8, true⟩) =
      (.ok ⟨1, 2, .Rgba, 8, true⟩, []) :=
  C3_header_roundtrip ⟨1, 2, .Rgba, 8, true⟩ (by decide) (by decide)
    (by decide) (by decide) (by decide)

/-- C5: `prepare` rejects a declared length over the maximum chunk size
constant with a `ChunkLength` error carrying the tag, having consumed
exactly the 8 header bytes and no body byte (the returned cursor still
holds the whole body); within the bound it never returns `ChunkLength`. -/
theorem C5_chunk_length_bound (p : Parser) (l0 l1 l2 l3 t0 t1 t2 t3 : Nat)
    (rest : List Nat)
    (hs : p.stream = l0::l1::l2::l3::t0::t1::t2::t3::rest) :
    (beBytes [l0, l1, l2, l3] > MAX_CHUNK_SIZE →
      Parser.prepare p =
        (.error (.ChunkLength [t0, t1, t2, t3]),
         ⟨beBytes [l0, l1, l2, l3], crcFold CRC32_INIT [t0, t1, t2, t3],
          rest⟩)) ∧
    (beBytes [l0, l1, l2, l3] ≤ MAX_CHUNK_SIZE →
      Parser.prepare p =
        (.ok (some [t0, t1, t2, t3]),
         ⟨beBytes [l0, l1, l2, l3], crcFold CRC32_INIT [t0, t1, t2, t3],
          rest⟩)) := by
  obtain ⟨len, ck, s⟩ := p
  simp only at hs
  subst hs
  rw [prepare_header]
  constructor
  · intro hgt
    rw [if_pos hgt]
  · intro hle
    rw [if_neg (by omega)]

theorem C5_chunk_length_bound_witness :
    Parser.prepare ⟨0, 0, [255, 255, 255, 255, 73, 69, 78, 68]⟩ =
      (.error (.ChunkLength [73, 69, 78, 68]),
       ⟨beBytes [255, 255, 255, 255], crcFold CRC32_INIT [73, 69, 78, 68],
        []⟩) :=
  (C5_chunk_length_bound ⟨0, 0, [255, 255, 255, 255, 73, 69, 78, 68]⟩
    255 255 255 255 73 69 78 68 [] rfl).1 (by decide)

/-- C7: `prepare` signals a clean end exactly when end-of-stream falls on
the very first byte of the next length field; an end-of-stream on any later
header byte surfaces as an unexpected-EOF I/O error, never as a clean
end. -/
theorem C7_clean_end (p : Parser) :
    ((Parser.prepare p).1 = .ok none ↔ p.stream = []) ∧
    (p.stream ≠ [] → p.stream.length < 8 →
      (Parser.prepare p).1 = .error (.IoError .unexpectedEof)) := by
  obtain ⟨len, ck, s⟩ := p
  simp only
  rcases s with _ | ⟨a, _ | ⟨b, _ | ⟨c, _ | ⟨d, _ | ⟨e, _ | ⟨f, _ |
    ⟨g, _ | ⟨h, rest⟩⟩⟩⟩⟩⟩⟩⟩
  · constructor
    · simp [Parser.prepare, Parser.u8_nil]
    · intro hne
      simp at hne
  all_goals (first
    | (simp [Parser.prepare, Parser.u8_cons, Parser.u8_nil]
       done)
    | (rw [prepare_header]
       refine ⟨?_, ?_⟩
       · split_ifs <;> simp
       · intro _ hlt
         simp only [List.length_cons] at hlt
         omega))

theorem C7_clean_end_witness :
    (Parser.prepare ⟨0, 0, []⟩).1 = .ok none ∧
    (Parser.prepare ⟨0, 0, [9, 9, 9]⟩).1 =
      .error (.IoError .unexpectedEof) :=
  ⟨(C7_clean_end ⟨0, 0, []⟩).1.mpr rfl,
   (C7_clean_end ⟨0, 0, [9, 9, 9]⟩).2 (by decide) (by decide)⟩

/-- C1: a chunk-long decode session.  `prepare` consumes the 4 length bytes
and re-initializes the accumulator before the 4 tag bytes, so after reading
the body the accumulator is the table-driven CRC-32 fold of exactly the tag
bytes plus the body bytes (the length field is not covered); `check_crc`
succeeds iff the trailing 4-byte big-endian field equals that accumulator
XORed with the init constant, and on mismatch fails with a `Crc32` error
carrying the chunk's tag. -/
theorem C1_crc_session (p : Parser) (tag body crcw rest : List Nat)
    (htag : tag.length = 4) (hcrc : crcw.length = 4)
    (hlen : body.length ≤ MAX_CHUNK_SIZE)
    (hs : p.stream = encodeBE32 body.length ++ tag ++ body ++ crcw ++ rest) :
    Parser.prepare p =
      (.ok (some tag),
       ⟨body.length, crcFold CRC32_INIT tag, body ++ crcw ++ rest⟩) ∧
    Parser.raw ⟨body.length, crcFold CRC32_INIT tag, body ++ crcw ++ rest⟩ =
      (.ok body,
       ⟨body.length, crcFold CRC32_INIT (tag ++ body), crcw ++ rest⟩) ∧
    Parser.check_crc
        ⟨body.length, crcFold CRC32_INIT (tag ++ body), crcw ++ rest⟩ tag =
      (if beBytes crcw = crcFold CRC32_INIT (tag ++ body) ^^^ CRC32_INIT then
        (.ok (), ⟨body.length, crcFold CRC32_INIT (tag ++ body), rest⟩)
      else
        (.error (.Crc32 tag),
         ⟨body.length, crcFold CRC32_INIT (tag ++ body), rest⟩)) := by
  obtain ⟨len, ck, s⟩ := p
  simp only at hs
  subst hs
  rcases tag with _ | ⟨t0, _ | ⟨t1, _ | ⟨t2, _ | ⟨t3, _ | ⟨t4, ttail⟩⟩⟩⟩⟩ <;>
    simp only [List.length_cons, List.length_nil] at htag <;> try omega
  rcases crcw with _ | ⟨c0, _ | ⟨c1, _ | ⟨c2, _ | ⟨c3, _ | ⟨c4, ctail⟩⟩⟩⟩⟩ <;>
    simp only [List.length_cons, List.length_nil] at hcrc <;> try omega
  have hlt : body.length < 4294967296 := by
    have : MAX_CHUNK_SIZE < 4294967296 := by norm_num [MAX_CHUNK_SIZE]
    omega
  refine ⟨?_, ?_, ?_⟩
  · simp only [encodeBE32, List.cons_append, List.nil_append]
    rw [prepare_header]
    rw [show beBytes [body.length / 16777216 % 256, body.length / 65536 % 256,
        body.length / 256 % 256, body.length % 256] = body.length from
      beBytes_encodeBE32 hlt]
    rw [if_neg (by omega)]
  · rw [Parser.raw, Parser.len, List.append_assoc]
    simp only [crcFold_cons, crcFold_nil]
    exact vec_append _ _ body _
  · simp only [List.cons_append, List.nil_append]
    rw [check_crc_cons]
    split_ifs with h1 h2 <;>
      first
        | rfl
        | exact absurd h2 h1

theorem C1_crc_session_witness :
    Parser.prepare ⟨0, 0, [0, 0, 0, 0, 73, 69, 78, 68, 174, 66, 96, 130]⟩ =
      (.ok (some [73, 69, 78, 68]),
       ⟨0, crcFold CRC32_INIT [73, 69, 78, 68], [174, 66, 96, 130]⟩) ∧
    Parser.raw ⟨0, crcFold CRC32_INIT [73, 69, 78, 68],
        [174, 66, 96, 130]⟩ =
      (.ok [],
       ⟨0, crcFold CRC32_INIT [73, 69, 78, 68], [174, 66, 96, 130]⟩) ∧
    Parser.check_crc ⟨0, crcFold CRC32_INIT [73, 69, 78, 68],
        [174, 66, 96, 130]⟩ [73, 69, 78, 68] =
      (if beBytes [174, 66, 96, 130] =
          crcFold CRC32_INIT [73, 69, 78, 68] ^^^ CRC32_INIT then
        (.ok (), ⟨0, crcFold CRC32_INIT [73, 69, 78, 68], []⟩)
      else
        (.error (.Crc32 [73, 69, 78, 68]),
         ⟨0, crcFold CRC32_INIT [73, 69, 78, 68], []⟩)) :=
  C1_crc_session ⟨0, 0, [0, 0, 0, 0, 73, 69, 78, 68, 174, 66, 96, 130]⟩
    [73, 69, 78, 68] [] [174, 66, 96, 130] [] rfl rfl (by decide) rfl

/-- C6: on a 13-byte body `ImageHeader::read` checks its constraints in the
fixed order — nonzero dimensions, bit depth in 1..16, color-type byte in
{0, 2, 3, 4, 6}, the validity matrix, compression byte 0, filter byte 0,
interlace byte 0 or 1 — fails with the error of the first violated
constraint, and consumes no byte past the field of that constraint (the
leftover stream still begins at the following field). -/
theorem C6_header_check_order (w3 w2 w1 w0 h3 h2 h1 h0 bd ct cm fm il : Nat)
    (rest : List Nat) :
    ImageHeader.read
        (w3 :: w2 :: w1 :: w0 :: h3 :: h2 :: h1 :: h0 ::
          bd :: ct :: cm :: fm :: il :: rest) =
      (if beBytes [w3, w2, w1, w0] = 0 ∨ beBytes [h3, h2, h1, h0] = 0 then
        (.error .ImageDimensions, bd :: ct :: cm :: fm :: il :: rest)
      else if bd = 0 ∨ bd > 16 then
        (.error (.BitDepth bd), ct :: cm :: fm :: il :: rest)
      else
        match colorTypeOfByte ct with
        | none => (.error (.ColorTypeErr ct), cm :: fm :: il :: rest)
        | some c =>
          if ¬ validColorMode c bd then
            (.error (.ColorMode c bd), cm :: fm :: il :: rest)
          else if cm ≠ 0 then
            (.error .CompressionMethod, fm :: il :: rest)
          else if fm ≠ 0 then
            (.error .FilterMethod, il :: rest)
          else if il = 0 then
            (.ok ⟨beBytes [w3, w2, w1, w0], beBytes [h3, h2, h1, h0],
              c, bd, false⟩, rest)
          else if il = 1 then
            (.ok ⟨beBytes [w3, w2, w1, w0], beBytes [h3, h2, h1, h0],
              c, bd, true⟩, rest)
          else
            (.error .InterlaceMethod, rest)) := by
  simp only [ImageHeader.read, readU32, readU8]
  by_cases hdim : beBytes [w3, w2, w1, w0] = 0 ∨ beBytes [h3, h2, h1, h0] = 0
  · rw [if_pos hdim, if_pos hdim]
  rw [if_neg hdim, if_neg hdim]
  by_cases hbd : bd = 0 ∨ bd > 16
  · rw [if_pos hbd, if_pos hbd]
  rw [if_neg hbd, if_neg hbd]
  rcases hct : colorTypeOfByte ct with _ | c
  · simp only [hct]
  simp only [hct]
  by_cases hv : validColorMode c bd
  · simp only [check_validity_ok hv, if_neg (not_not_intro hv)]
    by_cases hcm : cm ≠ 0
    · rw [if_pos hcm, if_pos hcm]
    · simp only [if_neg hcm]
      by_cases hfm : fm ≠ 0
      · rw [if_pos hfm, if_pos hfm]
      · simp only [if_neg hfm]
        rcases il with _ | _ | il <;> simp
  · simp only [check_validity_error hv, if_pos hv]

/-- C10: a header produced by a successful `ImageHeader::read` has its bit
depth in 1..=16, so the assertion inside `ColorType::bpp` holds and neither
`bpp` nor `raw_size` panics on a decoded header. -/
theorem C10_read_header_safe (s : List Nat) (h : ImageHeader)
    (rest : List Nat) (hr : ImageHeader.read s = (.ok h, rest)) :
    1 ≤ h.bit_depth ∧ h.bit_depth ≤ 16 ∧
    h.bpp.isSome = true ∧ h.raw_size.isSome = true := by
  have hbd : 1 ≤ h.bit_depth ∧ h.bit_depth ≤ 16 := by
    rw [ImageHeader.read] at hr
    repeat' split at hr
    all_goals simp only [Prod.mk.injEq, Except.ok.injEq] at hr
    any_goals exact Except.noConfusion hr.1
    all_goals
      (rw [← hr.1]
       dsimp only
       omega)
  have hbpp : h.bpp.isSome = true := by
    rw [ImageHeader.bpp, ColorType.bpp, if_pos hbd]
    rfl
  refine ⟨hbd.1, hbd.2, hbpp, ?_⟩
  rw [ImageHeader.raw_size]
  rcases hb : h.bpp with _ | b
  · rw [hb] at hbpp
    exact absurd hbpp (by simp)
  · rfl

theorem C10_read_header_safe_witness :
    1 ≤ (ImageHeader.mk 1 1 .Grey 8 false).bit_depth ∧
    (ImageHeader.mk 1 1 .Grey 8 false).bit_depth ≤ 16 ∧
    (ImageHeader.mk 1 1 .Grey 8 false).bpp.isSome = true ∧
    (ImageHeader.mk 1 1 .Grey 8 false).raw_size.isSome = true :=
  C10_read_header_safe [0, 0, 0, 1, 0, 0, 0, 1, 8, 0, 0, 0, 0]
    ⟨1, 1, .Grey, 8, false⟩ [] rfl

end PngPong
